import Mathlib

/-!
# redis-kv-veryfast: a sharded in-memory key-value cache

A shallow embedding of `main.go`: the capacity-bounded `CacheShard`, the hash
router `djb2Hash`, the `ShardedCache` built by `NewShardedCache`, and the HTTP
handler `requestHandler`.

Conventions of the embedding.
* A Go `string` is an immutable byte sequence: `GoString := List Byte`.
* Go's built-in `map[string]string` is an association list without duplicate
  keys (`AList`): `m[k] = v` is `AList.insert`, `delete(m, k)` is `AList.erase`,
  `v, ok := m[k]` is `AList.lookup`, `len(m)` is the length of the entry list.
* `for k := range m { ...; break }` visits one key of the map in an order the
  language leaves unspecified. The visited key is selected by an explicit
  parameter `pick : Nat`; every key of a non-empty map is selected by some
  `pick` (`rangeFirst_complete`).
* `int` is 64-bit two's complement: `Int` with `wrapInt64` after arithmetic.
  `uint64` is `Nat` reduced modulo `2^64`.
* Locks (`sync.RWMutex`) and logging have no effect on the sequential
  semantics and are left out.
* The panics of the language are results of the embedding (`none`): a slice index out of
  range, and `make` with a length out of range. Memory is otherwise not bounded: a run
  that the runtime aborts for lack of memory is not represented.
-/

namespace KVCache

/-- One byte of a Go string. -/
abbrev Byte := Fin 256

/-- A Go `string`: a sequence of bytes. -/
abbrev GoString := List Byte

/-- Go's `map[string]string`. -/
abbrev GoMap := AList (fun _ : GoString => GoString)

/-- Reduction of an integer to the 64-bit two's-complement range. -/
def wrapInt64 (x : Int) : Int := (x + 9223372036854775808) % 18446744073709551616 - 9223372036854775808

/-- Reduction of a natural number to the `uint64` range. -/
def wrapUInt64 (x : Nat) : Nat := x % 18446744073709551616

/-- The per-shard capacity, the literal `700000` of `CacheShard.Put`. -/
def shardCapacity : Int := 700000

/-- The type `CacheShard` of `main.go` (the embedded mutex is left out). -/
structure CacheShard where
  items : GoMap
  count : Int

/-- The function `NewCacheShard`: an empty map and counter zero. -/
def NewCacheShard : CacheShard := { items := ∅, count := 0 }

/-- The first key visited by `for k := range m`: some key of `m`, selected by `pick`;
nothing when the map is empty. -/
def rangeFirst (m : GoMap) (pick : Nat) : Option GoString := m.keys[pick % m.keys.length]?

/-- The eviction block of `CacheShard.Put`:
`if cs.count >= 700000 { for k := range cs.items { delete(cs.items, k); cs.count--; break } }`. -/
def CacheShard.evict (cs : CacheShard) (pick : Nat) : CacheShard :=
  if cs.count ≥ shardCapacity then
    match rangeFirst cs.items pick with
    | some k => { items := cs.items.erase k, count := wrapInt64 (cs.count - 1) }
    | none => cs
  else cs

/-- The method `CacheShard.Put`: the eviction block, then
`if _, exists := cs.items[key]; !exists { cs.count++ }`, then `cs.items[key] = value`. -/
def CacheShard.Put (cs : CacheShard) (pick : Nat) (key value : GoString) : CacheShard :=
  let cs1 := cs.evict pick
  let count2 := if (cs1.items.lookup key).isSome then cs1.count else wrapInt64 (cs1.count + 1)
  { items := cs1.items.insert key value, count := count2 }

/-- The method `CacheShard.Get`: `val, ok := cs.items[key]`; a missing key reads as the
zero value `""` with `ok = false`. -/
def CacheShard.Get (cs : CacheShard) (key : GoString) : GoString × Bool :=
  match cs.items.lookup key with
  | some val => (val, true)
  | none => ([], false)

/-- One call on a shard: `Put` (with the key its eviction step would visit first) or `Get`. -/
inductive ShardOp where
  | put (pick : Nat) (key value : GoString)
  | get (key : GoString)

/-- The shard after one call; `Get` only reads. -/
def CacheShard.step (cs : CacheShard) : ShardOp → CacheShard
  | .put pick key value => cs.Put pick key value
  | .get _ => cs

/-- The shard after a finite sequence of calls. -/
def CacheShard.run (cs : CacheShard) (ops : List ShardOp) : CacheShard := ops.foldl CacheShard.step cs

/-- The loop body of `djb2Hash`, `hash = ((hash << 5) + hash) + uint64(s[i])`, in `uint64`. -/
def djb2Step (hash : Nat) (b : Byte) : Nat :=
  wrapUInt64 (wrapUInt64 (wrapUInt64 (hash <<< 5) + hash) + b.val)

/-- The loop `for i := 0; i < len(s); i++` of `djb2Hash`, on the bytes still to visit. -/
def djb2Loop : GoString → Nat → Nat
  | [], hash => hash
  | b :: rest, hash => djb2Loop rest (djb2Step hash b)

/-- The function `djb2Hash`. -/
def djb2Hash (s : GoString) : Nat := djb2Loop s 5381

/-- The hash as the specification words it: the left fold of `h*33 + b` modulo `2^64`
over the bytes, from the seed 5381. -/
def djb2Spec (s : GoString) : Nat := s.foldl (fun h b => (h * 33 + b.val) % 2 ^ 64) 5381

/-- The type `ShardedCache` of `main.go`; each pointer of `shards` refers to a shard of
its own, so the slice is a list of shard values. -/
structure ShardedCache where
  shards : List CacheShard
  shardMask : Nat

/-- The loop `for powerOf2 < numShards { powerOf2 *= 2 }` of `NewShardedCache`, with
64-bit wraparound; `none` when `fuel` iterations were not enough to leave the loop. -/
def roundLoop : Nat → Int → Int → Option Int
  | 0, _, _ => none
  | fuel + 1, numShards, powerOf2 =>
    if powerOf2 < numShards then roundLoop fuel numShards (wrapInt64 (powerOf2 * 2))
    else some powerOf2

/-- The largest length that `make([]*CacheShard, n)` accepts. The runtime's `makeslice`
panics with `len out of range` when `n` is negative or when `n` elements of 8 bytes exceed
`maxAlloc`, which is `2^48` bytes on a 64-bit platform with 48-bit heap addresses; the
bound is `2^45`. -/
def maxSliceLen : Int := 35184372088832

/-- The function `NewShardedCache`. `none` when the rounding loop has not ended within
`fuel` iterations, or when `make` panics: on a negative length, or on a length above
`maxSliceLen`. -/
def NewShardedCache (fuel : Nat) (numShards : Int) : Option ShardedCache :=
  match roundLoop fuel numShards 1 with
  | none => none
  | some powerOf2 =>
    if powerOf2 < 0 ∨ powerOf2 > maxSliceLen then none
    else some { shards := List.replicate powerOf2.toNat NewCacheShard,
                shardMask := ((powerOf2 - 1) % 18446744073709551616).toNat }

/-- The method `ShardedCache.Get`; `none` when the slice index is out of range. -/
def ShardedCache.Get (sc : ShardedCache) (key : GoString) : Option (GoString × Bool) :=
  match sc.shards[djb2Hash key &&& sc.shardMask]? with
  | some shard => some (shard.Get key)
  | none => none

/-- The method `ShardedCache.Put`; `none` when the slice index is out of range. -/
def ShardedCache.Put (sc : ShardedCache) (pick : Nat) (key value : GoString) : Option ShardedCache :=
  match sc.shards[djb2Hash key &&& sc.shardMask]? with
  | some shard =>
    some { sc with shards := sc.shards.set (djb2Hash key &&& sc.shardMask) (shard.Put pick key value) }
  | none => none

/-- The invariant of a shard: the counter is the number of entries, within the capacity. -/
def CacheShard.Inv (cs : CacheShard) : Prop :=
  cs.count = (cs.items.entries.length : Int) ∧ cs.count ≤ shardCapacity

/-- The three-byte big-endian key of a number, distinct for distinct numbers below `2^24`. -/
def keyOf (i : Nat) : GoString := [Fin.ofNat (i / 65536), Fin.ofNat (i / 256), Fin.ofNat i]

/-- A map filled to the capacity: the 700000 keys `keyOf 0`, ..., `keyOf 699999`, in the
order a `range` visits them, each with the empty value. -/
def fullItems : GoMap where
  entries := (List.range 700000).map (fun i => ⟨keyOf i, []⟩)
  nodupKeys := by
    unfold List.NodupKeys List.keys
    rw [List.map_map]
    refine List.Nodup.map_on ?_ (List.nodup_range 700000)
    intro a ha b hb heq
    rw [List.mem_range] at ha hb
    simp only [Function.comp, keyOf, Fin.ofNat, List.cons.injEq, Fin.mk.injEq, and_true] at heq
    omega

/-- A shard at its capacity: 700000 entries and counter 700000. -/
def fullShard : CacheShard := { items := fullItems, count := 700000 }

/-- The shard index of a key: `djb2Hash(key) & sc.shardMask`. -/
def ShardedCache.route (sc : ShardedCache) (key : GoString) : Nat := djb2Hash key &&& sc.shardMask

/-- The mask selects an existing shard: `shardMask < len(shards)`. -/
def ShardedCache.InRange (sc : ShardedCache) : Prop := sc.shardMask < sc.shards.length

/-- A finite sequence of `ShardedCache.Put` calls, each with the key its eviction step
would visit first; `none` when a call panics. -/
def ShardedCache.runPuts (sc : ShardedCache) : List (Nat × GoString × GoString) → Option ShardedCache
  | [] => some sc
  | (pick, key, value) :: rest =>
    match sc.Put pick key value with
    | some sc' => sc'.runPuts rest
    | none => none

/-- The bytes of an ASCII string literal. -/
def ascii (s : String) : GoString := s.data.map (fun c => Fin.ofNat c.toNat)

/-- The constant `maxKeyValueSize`. -/
def maxKeyValueSize : Nat := 256

/-- The type `PutRequest` of `main.go`. -/
structure PutRequest where
  Key : GoString
  Value : GoString

/-- The type `GetResponse` of `main.go`. -/
structure GetResponse where
  Status : GoString
  Key : GoString
  Value : GoString

/-- The variable `putSuccessBytes`. -/
def putSuccessBytes : GoString :=
  ascii "\x7b\"status\":\"OK\",\"message\":\"Key inserted/updated successfully.\"\x7d"

/-- The variable `keyNotFoundBytes`. -/
def keyNotFoundBytes : GoString := ascii "\x7b\"status\":\"ERROR\",\"message\":\"Key not found.\"\x7d"

/-- The variable `healthOKBytes`. -/
def healthOKBytes : GoString := ascii "\x7b\"status\":\"healthy\"\x7d"

/-- What `requestHandler` reads of a `fasthttp.RequestCtx`: `ctx.Method()`, `ctx.Path()`,
`ctx.PostBody()` and `ctx.QueryArgs().Peek("key")` (empty when the argument is missing). -/
structure Request where
  method : GoString
  path : GoString
  postBody : GoString
  queryKey : GoString

/-- What `requestHandler` writes to the response: status code, content type and body. -/
structure Response where
  statusCode : Nat
  contentType : GoString
  body : GoString

/-- The call `ctx.Error(msg, statusCode)` of fasthttp: the status code, a plain-text body. -/
def ctxError (msg : String) (statusCode : Nat) : Response :=
  { statusCode := statusCode, contentType := ascii "text/plain; charset=utf-8", body := ascii msg }

/-- The calls `ctx.Response.Header.Set("Content-Type", "application/json")` and
`ctx.SetBody(body)` on a fresh response, whose status code is 200. -/
def jsonOK (body : GoString) : Response :=
  { statusCode := 200, contentType := ascii "application/json", body := body }

/-- The function `requestHandler`, on the cache held by the global variable `cache`.
The library functions are parameters: `unmarshal body` is `json.Unmarshal(body, &req)`,
`none` for a non-nil error and `some req` otherwise; `marshal resp` is `json.Marshal(resp)`,
`none` for a non-nil error. The result is the response and the cache after the call;
`none` when a cache call panics. -/
def requestHandler (unmarshal : GoString → Option PutRequest)
    (marshal : GetResponse → Option GoString) (cache : ShardedCache) (pick : Nat)
    (ctx : Request) : Option (Response × ShardedCache) :=
  if ctx.method = ascii "POST" then
    if ctx.path = ascii "/put" then
      match unmarshal ctx.postBody with
      | none => some (ctxError "Bad request" 400, cache)
      | some req =>
        if req.Key = [] then some (ctxError "Key parameter is required" 400, cache)
        else if req.Key.length > maxKeyValueSize ∨ req.Value.length > maxKeyValueSize then
          some (ctxError "Bad request" 400, cache)
        else
          match cache.Put pick req.Key req.Value with
          | some cache' => some (jsonOK putSuccessBytes, cache')
          | none => none
    else some (ctxError "Unsupported request" 404, cache)
  else if ctx.method = ascii "GET" then
    if ctx.path = ascii "/health" then some (jsonOK healthOKBytes, cache)
    else if ctx.path = ascii "/get" then
      if ctx.queryKey = [] then some (ctxError "Key parameter is required" 400, cache)
      else
        match cache.Get ctx.queryKey with
        | none => none
        | some (value, found) =>
          if found = false then some (jsonOK keyNotFoundBytes, cache)
          else
            match marshal { Status := ascii "OK", Key := ctx.queryKey, Value := value } with
            | none => some (ctxError "Bad request" 400, cache)
            | some respJSON => some (jsonOK respJSON, cache)
    else some (ctxError "Unsupported request" 404, cache)
  else some (ctxError "Unsupported request" 404, cache)

/-- An instance of the `unmarshal` parameter of `requestHandler`, for concrete runs: a
decoder with the same outcome `r` on every body. -/
def fixedUnmarshal (r : Option PutRequest) : GoString → Option PutRequest := fun _ => r

/-- An instance of the `marshal` parameter of `requestHandler`, for concrete runs: the three
fields in the layout of `GetResponse`, written without escaping; it never fails. -/
def plainMarshal (r : GetResponse) : Option GoString :=
  some (ascii "\x7b\"status\":\"" ++ r.Status ++ ascii "\",\"key\":\"" ++ r.Key ++
    ascii "\",\"value\":\"" ++ r.Value ++ ascii "\"\x7d")

/-! ## Facts about the map model -/

theorem alist_length_erase {α : Type} [DecidableEq α] {β : α → Type} (m : AList β) (e : α)
    (h : e ∈ m) : (m.erase e).keys.length + 1 = m.keys.length := by
  have hk : e ∈ m.keys := AList.mem_keys.mp h
  have hpos : 0 < m.keys.length := List.length_pos_of_mem hk
  rw [AList.keys_erase, List.length_erase_of_mem hk]
  omega

theorem entries_length_eq_keys (m : GoMap) : m.entries.length = m.keys.length := by
  simp [AList.keys, List.keys]

theorem size_erase_of_mem (m : GoMap) (e : GoString) (h : e ∈ m) :
    (m.erase e).entries.length + 1 = m.entries.length := by
  rw [entries_length_eq_keys, entries_length_eq_keys]
  exact alist_length_erase m e h

theorem size_insert_of_mem (m : GoMap) (k v : GoString) (h : k ∈ m) :
    (m.insert k v).entries.length = m.entries.length := by
  have h1 := size_erase_of_mem m k h
  rw [AList.insert_entries, List.length_cons]
  exact h1

theorem size_insert_of_not_mem (m : GoMap) (k v : GoString) (h : k ∉ m) :
    (m.insert k v).entries.length = m.entries.length + 1 := by
  rw [AList.insert_entries_of_neg h, List.length_cons]

theorem rangeFirst_mem (m : GoMap) (pick : Nat) (e : GoString) (h : rangeFirst m pick = some e) :
    e ∈ m := by
  unfold rangeFirst at h
  exact AList.mem_keys.mpr (List.getElem?_mem h)

theorem rangeFirst_isSome (m : GoMap) (pick : Nat) (h : 0 < m.entries.length) :
    ∃ e, rangeFirst m pick = some e := by
  rw [entries_length_eq_keys] at h
  have hlt : pick % m.keys.length < m.keys.length := Nat.mod_lt _ h
  exact ⟨m.keys[pick % m.keys.length], by unfold rangeFirst; exact List.getElem?_eq_getElem hlt⟩

theorem rangeFirst_empty (m : GoMap) (pick : Nat) (h : m.entries.length = 0) :
    rangeFirst m pick = none := by
  rw [entries_length_eq_keys] at h
  unfold rangeFirst
  rw [List.getElem?_eq_none]
  omega

/-- Every key of the map is the one some iteration order visits first. -/
theorem rangeFirst_complete (m : GoMap) (e : GoString) (h : e ∈ m) :
    ∃ pick, rangeFirst m pick = some e := by
  have hk : e ∈ m.keys := AList.mem_keys.mp h
  obtain ⟨i, hi, he⟩ := List.getElem_of_mem hk
  refine ⟨i, ?_⟩
  unfold rangeFirst
  rw [Nat.mod_eq_of_lt hi, List.getElem?_eq_getElem hi, he]

theorem wrapInt64_of_range (x : Int) (h1 : -9223372036854775808 ≤ x) (h2 : x < 9223372036854775808) :
    wrapInt64 x = x := by
  unfold wrapInt64
  omega

theorem wrapInt64_range (x : Int) :
    -9223372036854775808 ≤ wrapInt64 x ∧ wrapInt64 x < 9223372036854775808 := by
  unfold wrapInt64
  omega

/-! ## Facts about `CacheShard.evict` and `CacheShard.Put` -/

theorem evict_below (cs : CacheShard) (pick : Nat) (h : cs.count < shardCapacity) :
    cs.evict pick = cs := by
  unfold CacheShard.evict
  rw [if_neg (by omega)]

theorem evict_of_rangeFirst (cs : CacheShard) (pick : Nat) (e : GoString)
    (h : shardCapacity ≤ cs.count) (he : rangeFirst cs.items pick = some e) :
    cs.evict pick = { items := cs.items.erase e, count := wrapInt64 (cs.count - 1) } := by
  unfold CacheShard.evict
  rw [if_pos (by omega), he]

theorem evict_full (cs : CacheShard) (pick : Nat) (h : shardCapacity ≤ cs.count)
    (hpos : 0 < cs.items.entries.length) :
    ∃ e, rangeFirst cs.items pick = some e ∧ e ∈ cs.items ∧
      cs.evict pick = { items := cs.items.erase e, count := wrapInt64 (cs.count - 1) } := by
  obtain ⟨e, he⟩ := rangeFirst_isSome cs.items pick hpos
  refine ⟨e, he, rangeFirst_mem _ _ _ he, ?_⟩
  unfold CacheShard.evict
  rw [if_pos (by omega), he]

theorem Put_items (cs : CacheShard) (pick : Nat) (k v : GoString) :
    (cs.Put pick k v).items = (cs.evict pick).items.insert k v := rfl

theorem Get_Put_same (cs : CacheShard) (pick : Nat) (k v : GoString) :
    (cs.Put pick k v).Get k = (v, true) := by
  unfold CacheShard.Get
  rw [Put_items, AList.lookup_insert]

theorem Get_Put_other (cs : CacheShard) (pick : Nat) (k v k' : GoString) (hne : k' ≠ k) :
    (cs.Put pick k v).Get k' = (cs.evict pick).Get k' := by
  unfold CacheShard.Get
  rw [Put_items, AList.lookup_insert_ne hne]

theorem Inv_new : NewCacheShard.Inv := by
  unfold CacheShard.Inv NewCacheShard shardCapacity
  simp

theorem Inv_evict (cs : CacheShard) (pick : Nat) (h : cs.Inv) :
    (cs.evict pick).count = ((cs.evict pick).items.entries.length : Int) ∧
      (cs.evict pick).count < shardCapacity := by
  obtain ⟨hc, hle⟩ := h
  by_cases hfull : shardCapacity ≤ cs.count
  · have hpos : 0 < cs.items.entries.length := by
      unfold shardCapacity at hfull; omega
    obtain ⟨e, _, hmem, hev⟩ := evict_full cs pick hfull hpos
    have hsz := size_erase_of_mem cs.items e hmem
    rw [hev]
    unfold shardCapacity at *
    have hw : wrapInt64 (cs.count - 1) = cs.count - 1 := wrapInt64_of_range _ (by omega) (by omega)
    simp only [hw]
    omega
  · rw [evict_below cs pick (by omega)]
    exact ⟨hc, by omega⟩

theorem Inv_Put (cs : CacheShard) (pick : Nat) (k v : GoString) (h : cs.Inv) :
    (cs.Put pick k v).Inv := by
  obtain ⟨hc, hlt⟩ := Inv_evict cs pick h
  unfold CacheShard.Inv CacheShard.Put
  unfold shardCapacity at *
  by_cases hk : k ∈ (cs.evict pick).items
  · have hs : ((cs.evict pick).items.lookup k).isSome = true := AList.lookup_isSome.mpr hk
    simp only [hs, if_true]
    rw [size_insert_of_mem _ _ _ hk]
    omega
  · have hs : ¬ ((cs.evict pick).items.lookup k).isSome = true := fun hh => hk (AList.lookup_isSome.mp hh)
    simp only [hs, if_false]
    rw [size_insert_of_not_mem _ _ _ hk]
    have hw : wrapInt64 ((cs.evict pick).count + 1) = (cs.evict pick).count + 1 :=
      wrapInt64_of_range _ (by omega) (by omega)
    rw [hw]
    push_cast
    omega

theorem Inv_step (cs : CacheShard) (op : ShardOp) (h : cs.Inv) : (cs.step op).Inv := by
  cases op with
  | put pick key value => exact Inv_Put cs pick key value h
  | get key => exact h

theorem Inv_run (ops : List ShardOp) : ∀ cs : CacheShard, cs.Inv → (cs.run ops).Inv := by
  induction ops with
  | nil => intro cs h; exact h
  | cons op rest ih =>
    intro cs h
    exact ih (cs.step op) (Inv_step cs op h)

/-! ## The claims on `CacheShard` -/

/-- C1: on every shard state, and so on every state whose counter equals the number of
entries, at capacity or not, `Get(k)` right after `Put(k, v)` returns `(v, true)`, whichever
occupant `pick` makes the eviction step remove. -/
theorem C1_get_after_put (cs : CacheShard) (pick : Nat) (k v : GoString) :
    (cs.Put pick k v).Get k = (v, true) :=
  Get_Put_same cs pick k v

/-- C2: every shard state reached from `NewCacheShard` by a finite sequence of `Put` and
`Get` calls has its counter equal to the number of entries of its map. -/
theorem C2_count_eq_entries (ops : List ShardOp) :
    (NewCacheShard.run ops).count = ((NewCacheShard.run ops).items.entries.length : Int) :=
  (Inv_run ops NewCacheShard Inv_new).1

/-- C3: every shard state reached from `NewCacheShard` by a finite sequence of `Put` and
`Get` calls has its counter at most 700000, and holds at most 700000 entries. -/
theorem C3_count_le_capacity (ops : List ShardOp) :
    (NewCacheShard.run ops).count ≤ 700000 ∧ (NewCacheShard.run ops).items.entries.length ≤ 700000 := by
  have h := Inv_run ops NewCacheShard Inv_new
  unfold CacheShard.Inv shardCapacity at h
  omega

theorem fullItems_keys : fullItems.keys = (List.range 700000).map keyOf := by
  simp [AList.keys, List.keys, fullItems, Function.comp_def]

theorem fullItems_length : fullItems.entries.length = 700000 := by
  simp [fullItems]

theorem keyOf_mem_fullItems (i : Nat) (h : i < 700000) : keyOf i ∈ fullItems := by
  rw [AList.mem_keys, fullItems_keys]
  exact List.mem_map.mpr ⟨i, List.mem_range.mpr h, rfl⟩

theorem rangeFirst_fullItems (pick : Nat) (h : pick < 700000) :
    rangeFirst fullItems pick = some (keyOf pick) := by
  unfold rangeFirst
  rw [fullItems_keys]
  simp [Nat.mod_eq_of_lt h, h]

theorem fullShard_count : fullShard.count = (fullShard.items.entries.length : Int) := by
  show (700000 : Int) = (fullItems.entries.length : Int)
  rw [fullItems_length]
  rfl

theorem mem_length_pos (m : GoMap) (k : GoString) (h : k ∈ m) : 0 < m.entries.length := by
  rw [entries_length_eq_keys]
  exact List.length_pos_of_mem (AList.mem_keys.mp h)

theorem Put_count (cs : CacheShard) (pick : Nat) (k v : GoString) :
    (cs.Put pick k v).count =
      if ((cs.evict pick).items.lookup k).isSome then (cs.evict pick).count
      else wrapInt64 ((cs.evict pick).count + 1) := rfl

theorem mem_Put_self (cs : CacheShard) (pick : Nat) (k v : GoString) : k ∈ (cs.Put pick k v).items := by
  rw [Put_items, AList.mem_insert]
  exact Or.inl rfl

/-- The counter after a `Put` is a value of the `int` type, or was left below the capacity. -/
theorem Put_count_typed (cs : CacheShard) (pick : Nat) (k v : GoString) :
    (cs.Put pick k v).count < shardCapacity ∨
      (-9223372036854775808 ≤ (cs.Put pick k v).count ∧ (cs.Put pick k v).count < 9223372036854775808) := by
  rw [Put_count]
  split
  · rename_i hk
    have hmem : k ∈ (cs.evict pick).items := AList.lookup_isSome.mp hk
    by_cases hfull : shardCapacity ≤ cs.count
    · by_cases hpos : 0 < cs.items.entries.length
      · obtain ⟨e, _, _, hev⟩ := evict_full cs pick hfull hpos
        rw [hev]
        exact Or.inr (wrapInt64_range _)
      · have hnone := rangeFirst_empty cs.items pick (by omega)
        have hev : cs.evict pick = cs := by
          unfold CacheShard.evict
          rw [if_pos (by omega), hnone]
        rw [hev] at hmem
        exact absurd (mem_length_pos _ _ hmem) hpos
    · rw [evict_below cs pick (by omega)]
      exact Or.inl (by omega)
  · exact Or.inr (wrapInt64_range _)

/-- Writing a key that is present does not raise the counter. -/
theorem Put_present_count_le (cs : CacheShard) (pick : Nat) (k v : GoString) (hk : k ∈ cs.items)
    (ht : cs.count < shardCapacity ∨
      (-9223372036854775808 ≤ cs.count ∧ cs.count < 9223372036854775808)) :
    (cs.Put pick k v).count ≤ cs.count := by
  rw [Put_count]
  by_cases hfull : shardCapacity ≤ cs.count
  · obtain ⟨e, _, _, hev⟩ := evict_full cs pick hfull (mem_length_pos _ _ hk)
    rw [hev]
    unfold shardCapacity at *
    have hw : wrapInt64 (cs.count - 1) = cs.count - 1 := wrapInt64_of_range _ (by omega) (by omega)
    simp only [hw]
    have hw2 : wrapInt64 (cs.count - 1 + 1) = cs.count := by
      rw [wrapInt64_of_range _ (by omega) (by omega)]; omega
    split
    · omega
    · rw [hw2]
  · rw [evict_below cs pick (by omega)]
    rw [if_pos (AList.lookup_isSome.mpr hk)]

/-- C4: on a shard whose counter equals its number of entries (a value of the `int` type)
and is at least 700000, `Put(k, v)` removes exactly one occupant `e` that was present,
the one the `range` visits first: the evicted map has one entry less and agrees with the
old map on every other key, the eviction lowers the counter by exactly one, the resulting
map is the old map with `e` erased and then `k` mapped to `v`, and the final counter is
the lowered one, plus one when `k` is not in the evicted map. -/
theorem C4_put_at_capacity_evicts_one (cs : CacheShard) (pick : Nat) (k v : GoString)
    (hc : cs.count = (cs.items.entries.length : Int)) (hfull : 700000 ≤ cs.count)
    (hint : cs.count ≤ 9223372036854775807) :
    ∃ e, rangeFirst cs.items pick = some e ∧ e ∈ cs.items ∧
      (cs.evict pick).items = cs.items.erase e ∧
      (cs.evict pick).count = cs.count - 1 ∧
      (cs.items.erase e).entries.length + 1 = cs.items.entries.length ∧
      (∀ k', k' ≠ e → (cs.items.erase e).lookup k' = cs.items.lookup k') ∧
      (cs.Put pick k v).items = (cs.items.erase e).insert k v ∧
      (cs.Put pick k v).count = cs.count - 1 + (if k ∈ cs.items.erase e then 0 else 1) := by
  have hpos : 0 < cs.items.entries.length := by omega
  obtain ⟨e, hpick, hmem, hev⟩ := evict_full cs pick (by unfold shardCapacity; omega) hpos
  have hw : wrapInt64 (cs.count - 1) = cs.count - 1 := wrapInt64_of_range _ (by omega) (by omega)
  have hw2 : wrapInt64 (cs.count - 1 + 1) = cs.count - 1 + 1 :=
    wrapInt64_of_range _ (by omega) (by omega)
  refine ⟨e, hpick, hmem, ?_, ?_, size_erase_of_mem _ _ hmem, ?_, ?_, ?_⟩
  · rw [hev]
  · rw [hev]; exact hw
  · intro k' hne
    exact AList.lookup_erase_ne hne
  · rw [Put_items, hev]
  · rw [Put_count, hev]
    simp only [hw, AList.lookup_isSome]
    by_cases hk : k ∈ cs.items.erase e
    · rw [if_pos hk, if_pos hk]; omega
    · rw [if_neg hk, if_neg hk, hw2]

/-- Witness of C4: the full shard `fullShard`, written at the key `[7]`. -/
theorem C4_put_at_capacity_evicts_one_witness :
    ∃ e, rangeFirst fullShard.items 3 = some e ∧ e ∈ fullShard.items ∧
      (fullShard.evict 3).items = fullShard.items.erase e ∧
      (fullShard.evict 3).count = fullShard.count - 1 ∧
      (fullShard.items.erase e).entries.length + 1 = fullShard.items.entries.length ∧
      (∀ k', k' ≠ e → (fullShard.items.erase e).lookup k' = fullShard.items.lookup k') ∧
      (fullShard.Put 3 [7] [8]).items = (fullShard.items.erase e).insert [7] [8] ∧
      (fullShard.Put 3 [7] [8]).count =
        fullShard.count - 1 + (if ([7] : GoString) ∈ fullShard.items.erase e then 0 else 1) :=
  C4_put_at_capacity_evicts_one fullShard 3 [7] [8] fullShard_count
    (by show (700000 : Int) ≤ 700000; decide)
    (by show (700000 : Int) ≤ 9223372036854775807; decide)

/-- C5, as stated, fails: on the full shard `fullShard` (counter = entries = 700000) the
key `keyOf 1` is present, and `Put(keyOf 1, "")` with the `range` visiting `keyOf 0` first
evicts `keyOf 0`, which was present before the call and is absent after it. -/
theorem C5_counterexample :
    fullShard.count = (fullShard.items.entries.length : Int) ∧ fullShard.count = 700000 ∧
      keyOf 1 ∈ fullShard.items ∧ keyOf 0 ∈ fullShard.items ∧
      keyOf 0 ∉ (fullShard.Put 0 (keyOf 1) []).items := by
  refine ⟨fullShard_count, rfl, keyOf_mem_fullItems 1 (by decide), keyOf_mem_fullItems 0 (by decide), ?_⟩
  have hev := evict_of_rangeFirst fullShard 0 (keyOf 0) (le_of_eq rfl)
    (rangeFirst_fullItems 0 (by decide))
  rw [Put_items, hev, AList.mem_insert, AList.mem_erase]
  intro h
  rcases h with h | h
  · exact absurd h (by decide)
  · exact h.1 rfl

/-- C5, amended: `Put` evicts whenever the counter is at least 700000 at the call, whether
or not the key is new. On a shard at capacity (counter = entries = 700000) with `k`
present, `Put(k, v)` removes the one occupant `e` the `range` visits first and nothing
else: every key present before other than `e` is still present, `k` reads back as `v`,
and `e` is absent afterwards unless `e = k`. -/
theorem C5_put_present_at_capacity (cs : CacheShard) (pick : Nat) (k v : GoString)
    (hc : cs.count = (cs.items.entries.length : Int)) (hfull : cs.count = 700000)
    (hk : k ∈ cs.items) :
    ∃ e, rangeFirst cs.items pick = some e ∧ e ∈ cs.items ∧
      (∀ k', k' ∈ cs.items → k' ≠ e → k' ∈ (cs.Put pick k v).items) ∧
      (cs.Put pick k v).Get k = (v, true) ∧
      (e ≠ k → e ∉ (cs.Put pick k v).items) := by
  have hpos : 0 < cs.items.entries.length := mem_length_pos _ _ hk
  obtain ⟨e, hpick, hmem, hev⟩ := evict_full cs pick (by unfold shardCapacity; omega) hpos
  refine ⟨e, hpick, hmem, ?_, Get_Put_same cs pick k v, ?_⟩
  · intro k' hk' hne
    rw [Put_items, hev, AList.mem_insert, AList.mem_erase]
    exact Or.inr ⟨hne, hk'⟩
  · intro hne hin
    rw [Put_items, hev, AList.mem_insert, AList.mem_erase] at hin
    rcases hin with h | h
    · exact hne h
    · exact h.1 rfl

/-- Witness of the amended C5: the full shard, rewritten at its present key `keyOf 1`. -/
theorem C5_put_present_at_capacity_witness :
    ∃ e, rangeFirst fullShard.items 5 = some e ∧ e ∈ fullShard.items ∧
      (∀ k', k' ∈ fullShard.items → k' ≠ e → k' ∈ (fullShard.Put 5 (keyOf 1) [9]).items) ∧
      (fullShard.Put 5 (keyOf 1) [9]).Get (keyOf 1) = ([9], true) ∧
      (e ≠ keyOf 1 → e ∉ (fullShard.Put 5 (keyOf 1) [9]).items) :=
  C5_put_present_at_capacity fullShard 5 (keyOf 1) [9] fullShard_count rfl
    (keyOf_mem_fullItems 1 (by decide))

/-- C6: on a shard whose counter is below 700000, `Put(k, v)` removes nothing: for every
other key `k' ≠ k`, `Get(k')` returns the same pair after the call as before it, and every
key present before the call is present after it. -/
theorem C6_put_below_capacity_frame (cs : CacheShard) (pick : Nat) (k v : GoString)
    (hlt : cs.count < 700000) :
    (∀ k', k' ≠ k → (cs.Put pick k v).Get k' = cs.Get k') ∧
      (∀ k', k' ∈ cs.items → k' ∈ (cs.Put pick k v).items) := by
  have hev : cs.evict pick = cs := evict_below cs pick (by unfold shardCapacity; omega)
  constructor
  · intro k' hne
    rw [Get_Put_other cs pick k v k' hne, hev]
  · intro k' hk'
    rw [Put_items, hev, AList.mem_insert]
    exact Or.inr hk'

/-- Witness of C6: a shard holding the key `[1]`, written at the key `[3]`. -/
theorem C6_put_below_capacity_frame_witness :
    (∀ k', k' ≠ [3] → ((NewCacheShard.Put 0 [1] [2]).Put 0 [3] [4]).Get k' =
        (NewCacheShard.Put 0 [1] [2]).Get k') ∧
      (∀ k', k' ∈ (NewCacheShard.Put 0 [1] [2]).items →
        k' ∈ ((NewCacheShard.Put 0 [1] [2]).Put 0 [3] [4]).items) :=
  C6_put_below_capacity_frame (NewCacheShard.Put 0 [1] [2]) 0 [3] [4] (by decide)

/-- C7: on every shard state, and so on every state whose counter equals the number of
entries, after `Put(k, v1)` and then `Put(k, v2)` the call `Get(k)` returns `(v2, true)`,
and the counter after the second `Put` is not greater than the counter after the first. -/
theorem C7_overwrite (cs : CacheShard) (pick1 pick2 : Nat) (k v1 v2 : GoString) :
    ((cs.Put pick1 k v1).Put pick2 k v2).Get k = (v2, true) ∧
      ((cs.Put pick1 k v1).Put pick2 k v2).count ≤ (cs.Put pick1 k v1).count :=
  ⟨Get_Put_same _ pick2 k v2,
    Put_present_count_le _ pick2 k v2 (mem_Put_self cs pick1 k v1) (Put_count_typed cs pick1 k v1)⟩

/-! ## The hash -/

theorem djb2Step_eq (h : Nat) (b : Byte) : djb2Step h b = (h * 33 + b.val) % 2 ^ 64 := by
  unfold djb2Step wrapUInt64
  rw [Nat.shiftLeft_eq]
  norm_num
  omega

theorem djb2Loop_eq_foldl (s : GoString) :
    ∀ h : Nat, djb2Loop s h = s.foldl (fun h b => (h * 33 + b.val) % 2 ^ 64) h := by
  induction s with
  | nil => intro h; rfl
  | cons b rest ih =>
    intro h
    rw [djb2Loop, ih, djb2Step_eq, List.foldl_cons]

/-- C9: for every byte string `s`, `djb2Hash s` is the left fold over the bytes of `s`,
from 5381, of the step `h ↦ (h*33 + b) mod 2^64`; the shift form of the code,
`((h << 5) + h) + b` in `uint64`, agrees with `(h*33 + b) mod 2^64` for every `h` and `b`;
and the hash of the empty string is 5381. -/
theorem C9_djb2_is_times33_fold (s : GoString) :
    djb2Hash s = djb2Spec s ∧
      (∀ (h : Nat) (b : Byte), djb2Step h b = (h * 33 + b.val) % 2 ^ 64) ∧
      djb2Hash [] = 5381 :=
  ⟨djb2Loop_eq_foldl s 5381, djb2Step_eq, rfl⟩

/-! ## The rounding loop and `NewShardedCache` -/

theorem roundLoop_succ (fuel : Nat) (n p : Int) :
    roundLoop (fuel + 1) n p =
      if p < n then roundLoop fuel n (wrapInt64 (p * 2)) else some p := rfl

theorem two_pow_le_of_le (a b : Nat) (h : a ≤ b) : (2 : Int) ^ a ≤ 2 ^ b :=
  pow_le_pow_right₀ (by norm_num) h

theorem two_pow_pos (a : Nat) : (0 : Int) < 2 ^ a := pow_pos (by norm_num) a

theorem two_pow_62 : (2 : Int) ^ 62 = 4611686018427387904 := by norm_num

/-- More fuel does not change a result of the loop. -/
theorem roundLoop_mono (n : Int) : ∀ (fuel fuel' : Nat) (p r : Int), fuel ≤ fuel' →
    roundLoop fuel n p = some r → roundLoop fuel' n p = some r := by
  intro fuel
  induction fuel with
  | zero => intro fuel' p r _ h; exact absurd h (by simp [roundLoop])
  | succ f ih =>
    intro fuel' p r hle h
    obtain ⟨g, rfl⟩ : ∃ g, fuel' = g + 1 := ⟨fuel' - 1, by omega⟩
    rw [roundLoop_succ] at h ⊢
    by_cases hp : p < n
    · rw [if_pos hp] at h ⊢
      exact ih g _ r (by omega) h
    · rw [if_neg hp] at h ⊢
      exact h

/-- From a power of two `2^e` whose half is below `n`, the loop ends at the least power of
two that is at least `n`, when `n ≤ 2^62` and the fuel covers the doublings left. -/
theorem roundLoop_pow (n : Int) (hn : n ≤ 4611686018427387904) :
    ∀ (fuel e : Nat), e ≤ 62 → 62 - e < fuel → (e = 0 ∨ (2 : Int) ^ (e - 1) < n) →
      ∃ e', e' ≤ 62 ∧ roundLoop fuel n (2 ^ e) = some (2 ^ e') ∧ n ≤ 2 ^ e' ∧
        (e' = 0 ∨ (2 : Int) ^ (e' - 1) < n) := by
  intro fuel
  induction fuel with
  | zero => intro e _ h; omega
  | succ f ih =>
    intro e he hf hprev
    rw [roundLoop_succ]
    by_cases hp : (2 : Int) ^ e < n
    · have he62 : e < 62 := by
        by_contra hcon
        have : e = 62 := by omega
        subst this
        rw [two_pow_62] at hp
        omega
      have hle : (2 : Int) ^ (e + 1) ≤ 4611686018427387904 := by
        rw [← two_pow_62]; exact two_pow_le_of_le _ _ (by omega)
      have hpos := two_pow_pos (e + 1)
      have hw : wrapInt64 ((2 : Int) ^ e * 2) = 2 ^ (e + 1) := by
        rw [← pow_succ]
        exact wrapInt64_of_range _ (by omega) (by omega)
      rw [if_pos hp, hw]
      exact ih (e + 1) (by omega) (by omega) (Or.inr (by simpa using hp))
    · rw [if_neg hp]
      exact ⟨e, he, rfl, by omega, hprev⟩

/-- Above `2^62` the loop never ends: `powerOf2` reaches `2^62`, wraps to `-2^63`, then
to `0`, and stays there. -/
theorem roundLoop_zero_diverges (n : Int) (hn : 0 < n) : ∀ fuel, roundLoop fuel n 0 = none := by
  intro fuel
  induction fuel with
  | zero => rfl
  | succ f ih =>
    rw [roundLoop_succ, if_pos hn]
    have hw : wrapInt64 (0 * 2) = 0 := by unfold wrapInt64; omega
    rw [hw]; exact ih

theorem roundLoop_min_diverges (n : Int) (hn : 0 < n) :
    ∀ fuel, roundLoop fuel n (-9223372036854775808) = none := by
  intro fuel
  cases fuel with
  | zero => rfl
  | succ f =>
    rw [roundLoop_succ, if_pos (by omega)]
    have hw : wrapInt64 (-9223372036854775808 * 2) = 0 := by unfold wrapInt64; omega
    rw [hw]; exact roundLoop_zero_diverges n hn f

theorem roundLoop_pow_diverges (n : Int) (hn : 4611686018427387904 < n) :
    ∀ (d e : Nat), e + d = 62 → ∀ fuel, roundLoop fuel n (2 ^ e) = none := by
  intro d
  induction d with
  | zero =>
    intro e he fuel
    have : e = 62 := by omega
    subst this
    cases fuel with
    | zero => rfl
    | succ f =>
      rw [roundLoop_succ, two_pow_62, if_pos hn]
      have hw : wrapInt64 (4611686018427387904 * 2) = -9223372036854775808 := by
        unfold wrapInt64; omega
      rw [hw]; exact roundLoop_min_diverges n (by omega) f
  | succ d ih =>
    intro e he fuel
    cases fuel with
    | zero => rfl
    | succ f =>
      have hle : (2 : Int) ^ (e + 1) ≤ 4611686018427387904 := by
        rw [← two_pow_62]; exact two_pow_le_of_le _ _ (by omega)
      have hpos := two_pow_pos (e + 1)
      have hlt : (2 : Int) ^ e < n := by
        have := two_pow_le_of_le e (e + 1) (by omega)
        omega
      have hw : wrapInt64 ((2 : Int) ^ e * 2) = 2 ^ (e + 1) := by
        rw [← pow_succ]
        exact wrapInt64_of_range _ (by omega) (by omega)
      rw [roundLoop_succ, if_pos hlt, hw]
      exact ih (e + 1) (by omega) f

theorem roundLoop_diverges (n : Int) (hn : 4611686018427387904 < n) (fuel : Nat) :
    roundLoop fuel n 1 = none := by
  have h := roundLoop_pow_diverges n hn 62 0 (by omega) fuel
  simpa using h

theorem two_pow_45 : (2 : Int) ^ 45 = 35184372088832 := by norm_num

/-- The loop is left only at a value that is not below the request. -/
theorem roundLoop_exit (n : Int) : ∀ (fuel : Nat) (p r : Int),
    roundLoop fuel n p = some r → n ≤ r := by
  intro fuel
  induction fuel with
  | zero => intro p r h; exact absurd h (by simp [roundLoop])
  | succ f ih =>
    intro p r h
    rw [roundLoop_succ] at h
    by_cases hp : p < n
    · rw [if_pos hp] at h
      exact ih _ r h
    · rw [if_neg hp] at h
      have hpr : p = r := Option.some.inj h
      omega

/-- The result of the loop, whenever it has one, for a request up to `2^62`. -/
theorem roundLoop_result (fuel : Nat) (n r : Int) (hn : n ≤ 4611686018427387904)
    (hr : roundLoop fuel n 1 = some r) :
    ∃ e : Nat, e ≤ 62 ∧ r = 2 ^ e ∧ n ≤ (2 : Int) ^ e ∧ (e = 0 ∨ (2 : Int) ^ (e - 1) < n) := by
  obtain ⟨e, he, hloop, hge, hprev⟩ :=
    roundLoop_pow n hn (fuel + 63) 0 (by omega) (by omega) (Or.inl rfl)
  rw [pow_zero] at hloop
  have hr2 := roundLoop_mono n fuel (fuel + 63) 1 r (by omega) hr
  rw [hloop] at hr2
  exact ⟨e, he, (Option.some.inj hr2).symm, hge, hprev⟩

/-- The least power of two at least `n` is within the slice bound when `n` is. -/
theorem exponent_le_45 (n : Int) (e : Nat) (hn : n ≤ 35184372088832)
    (hprev : e = 0 ∨ (2 : Int) ^ (e - 1) < n) : e ≤ 45 := by
  rcases hprev with h0 | hlt
  · omega
  · by_contra hcon
    have h45 := two_pow_le_of_le 45 (e - 1) (by omega)
    rw [two_pow_45] at h45
    omega

/-- A request above `2^45` gets no cache: the loop does not end, or `make` panics. -/
theorem NewShardedCache_none_of_big (fuel : Nat) (n : Int) (hn : 35184372088832 < n) :
    NewShardedCache fuel n = none := by
  unfold NewShardedCache
  cases hr : roundLoop fuel n 1 with
  | none => rfl
  | some r =>
    have hge := roundLoop_exit n fuel 1 r hr
    have hbig : r < 0 ∨ r > maxSliceLen := Or.inr (by unfold maxSliceLen; omega)
    simp only [if_pos hbig]

/-- What `NewShardedCache` returns, whenever it returns: the request is at most `2^45`,
and the cache has `2^e` fresh shards and mask `2^e - 1`, for the least `2^e` at least `n`. -/
theorem NewShardedCache_some (fuel : Nat) (n : Int) (sc : ShardedCache)
    (h : NewShardedCache fuel n = some sc) :
    n ≤ 35184372088832 ∧ ∃ e : Nat, e ≤ 45 ∧
      sc.shards = List.replicate (2 ^ e) NewCacheShard ∧ sc.shardMask = 2 ^ e - 1 ∧
      n ≤ (2 : Int) ^ e ∧ (e = 0 ∨ (2 : Int) ^ (e - 1) < n) := by
  have hn : n ≤ 35184372088832 := by
    by_contra hcon
    rw [NewShardedCache_none_of_big fuel n (by omega)] at h
    exact absurd h (by simp)
  refine ⟨hn, ?_⟩
  unfold NewShardedCache at h
  cases hr : roundLoop fuel n 1 with
  | none => rw [hr] at h; exact absurd h (by simp)
  | some r =>
    obtain ⟨e, _, hre, hge, hprev⟩ := roundLoop_result fuel n r (by omega) hr
    subst hre
    rw [hr] at h
    have he45 := exponent_le_45 n e hn hprev
    have hpos := two_pow_pos e
    have hle : (2 : Int) ^ e ≤ 35184372088832 := by
      rw [← two_pow_45]; exact two_pow_le_of_le _ _ he45
    have hcast : ((2 : Int) ^ e).toNat = 2 ^ e := by
      have : ((2 : Int) ^ e) = ((2 ^ e : Nat) : Int) := by push_cast; rfl
      rw [this, Int.toNat_natCast]
    have hposN : 0 < 2 ^ e := Nat.two_pow_pos e
    have hmask : (((2 : Int) ^ e - 1) % 18446744073709551616).toNat = 2 ^ e - 1 := by
      have h1 : ((2 : Int) ^ e - 1) % 18446744073709551616 = (2 : Int) ^ e - 1 :=
        Int.emod_eq_of_lt (by omega) (by omega)
      have h2 : ((2 : Int) ^ e - 1) = ((2 ^ e - 1 : Nat) : Int) := by
        rw [Nat.cast_sub hposN]; push_cast; rfl
      rw [h1, h2, Int.toNat_natCast]
    have hfit : ¬ ((2 : Int) ^ e < 0 ∨ (2 : Int) ^ e > maxSliceLen) := by
      unfold maxSliceLen; omega
    simp only [if_neg hfit, hcast, hmask] at h
    have hsc := (Option.some.inj h).symm
    subst hsc
    exact ⟨e, he45, rfl, rfl, hge, hprev⟩

/-- With at least 63 iterations allowed, `NewShardedCache` returns for every `n ≤ 2^45`. -/
theorem NewShardedCache_returns (fuel : Nat) (n : Int) (hfuel : 63 ≤ fuel)
    (hn : n ≤ 35184372088832) : ∃ sc, NewShardedCache fuel n = some sc := by
  obtain ⟨e, he, hloop, hge, hprev⟩ :=
    roundLoop_pow n (by omega) fuel 0 (by omega) (by omega) (Or.inl rfl)
  rw [pow_zero] at hloop
  have he45 := exponent_le_45 n e hn hprev
  have hpos := two_pow_pos e
  have hle : (2 : Int) ^ e ≤ 35184372088832 := by
    rw [← two_pow_45]; exact two_pow_le_of_le _ _ he45
  have hfit : ¬ ((2 : Int) ^ e < 0 ∨ (2 : Int) ^ e > maxSliceLen) := by
    unfold maxSliceLen; omega
  unfold NewShardedCache
  rw [hloop]
  simp only [if_neg hfit]
  exact ⟨_, rfl⟩

theorem Get_new_shard (k : GoString) : NewCacheShard.Get k = ([], false) := rfl

theorem Get_fresh_sharded (fuel : Nat) (n : Int) (sc : ShardedCache)
    (h : NewShardedCache fuel n = some sc) (k : GoString) : sc.Get k = some ([], false) := by
  obtain ⟨_, e, _, hsh, hmask, _, _⟩ := NewShardedCache_some fuel n sc h
  have hposN : 0 < 2 ^ e := Nat.two_pow_pos e
  have hidx : djb2Hash k &&& sc.shardMask < 2 ^ e := by
    have := @Nat.and_le_right (djb2Hash k) sc.shardMask
    omega
  unfold ShardedCache.Get
  rw [hsh, List.getElem?_replicate, if_pos hidx]
  rfl

/-- C8, as stated for `NewShardedCache(n)` with every `n`, fails: at `n = 2^45 + 1` the
rounding loop ends at `2^46`, `make` panics on that length, and no store exists on which
`Get` could return `("", false)`. -/
theorem C8_counterexample :
    ¬ ∃ (fuel : Nat) (sc : ShardedCache),
      NewShardedCache fuel 35184372088833 = some sc ∧ sc.Get [107] = some ([], false) := by
  rintro ⟨fuel, sc, h, _⟩
  rw [NewShardedCache_none_of_big fuel 35184372088833 (by decide)] at h
  exact absurd h (by simp)

/-- C8, amended to requests `n ≤ 2^45`: for every key `k`, `Get(k)` on a freshly
constructed store returns `("", false)`, on `NewCacheShard()` and on the cache that
`NewShardedCache(n)` returns (63 loop iterations are enough for it to return; the run
is taken not to exhaust memory). -/
theorem C8_get_on_fresh_store (k : GoString) (fuel : Nat) (n : Int) (hfuel : 63 ≤ fuel)
    (hn : n ≤ 35184372088832) :
    NewCacheShard.Get k = ([], false) ∧
      ∃ sc, NewShardedCache fuel n = some sc ∧ sc.Get k = some ([], false) := by
  obtain ⟨sc, hsc⟩ := NewShardedCache_returns fuel n hfuel hn
  exact ⟨rfl, sc, hsc, Get_fresh_sharded fuel n sc hsc k⟩

/-- Witness of the amended C8: the default cache of four shards, read at the key `[107]`. -/
theorem C8_get_on_fresh_store_witness :
    NewCacheShard.Get [107] = ([], false) ∧
      ∃ sc, NewShardedCache 63 4 = some sc ∧ sc.Get [107] = some ([], false) :=
  C8_get_on_fresh_store [107] 63 4 (by decide) (by decide)

/-- C10, as stated for every `n`, fails: at `n = 2^45 + 1`, a value of the `int` type,
`NewShardedCache` returns no cache, however many iterations the loop is allowed: the loop
ends at `2^46` and `make` panics on that length. -/
theorem C10_counterexample :
    ¬ ∃ (fuel : Nat) (sc : ShardedCache), NewShardedCache fuel 35184372088833 = some sc := by
  rintro ⟨fuel, sc, h⟩
  rw [NewShardedCache_none_of_big fuel 35184372088833 (by decide)] at h
  exact absurd h (by simp)

/-- C10, amended to requests `n ≤ 2^45`: `NewShardedCache(n)` returns (63 loop iterations
are enough; the run is taken not to exhaust memory) a cache whose number of shards is the least power of two that is at least `n`
(so it is at least 1, and is 1 when `n ≤ 1`), whose `shardMask` is that number minus 1,
not wrapped, and each of whose shards has an empty map and counter 0. -/
theorem C10_new_sharded_cache (fuel : Nat) (n : Int) (hfuel : 63 ≤ fuel)
    (hn : n ≤ 35184372088832) :
    ∃ (sc : ShardedCache) (e : Nat), NewShardedCache fuel n = some sc ∧
      sc.shards.length = 2 ^ e ∧ n ≤ ((2 ^ e : Nat) : Int) ∧
      (∀ j : Nat, n ≤ ((2 ^ j : Nat) : Int) → 2 ^ e ≤ 2 ^ j) ∧
      1 ≤ sc.shards.length ∧ (n ≤ 1 → sc.shards.length = 1) ∧
      sc.shardMask + 1 = sc.shards.length ∧
      (∀ sh ∈ sc.shards, sh.items.entries = [] ∧ sh.count = 0) := by
  obtain ⟨sc, hsc⟩ := NewShardedCache_returns fuel n hfuel hn
  obtain ⟨_, e, _, hsh, hmask, hge, hprev⟩ := NewShardedCache_some fuel n sc hsc
  have hposN : 0 < 2 ^ e := Nat.two_pow_pos e
  have hlen : sc.shards.length = 2 ^ e := by rw [hsh, List.length_replicate]
  refine ⟨sc, e, hsc, hlen, by push_cast; exact hge, ?_, by omega, ?_, by omega, ?_⟩
  · intro j hj
    push_cast at hj
    rcases hprev with h0 | hlt
    · subst h0; exact Nat.one_le_two_pow
    · have hej : e - 1 < j := by
        by_contra hcon
        have := two_pow_le_of_le j (e - 1) (by omega)
        omega
      exact Nat.pow_le_pow_right (by norm_num) (by omega)
  · intro h1
    rcases hprev with h0 | hlt
    · rw [hlen, h0]; rfl
    · have := two_pow_pos (e - 1)
      omega
  · intro sh hmem
    rw [hsh] at hmem
    rw [List.eq_of_mem_replicate hmem]
    exact ⟨rfl, rfl⟩

/-- Witness of the amended C10: the default request of four shards. -/
theorem C10_new_sharded_cache_witness :
    ∃ (sc : ShardedCache) (e : Nat), NewShardedCache 63 4 = some sc ∧
      sc.shards.length = 2 ^ e ∧ (4 : Int) ≤ ((2 ^ e : Nat) : Int) ∧
      (∀ j : Nat, (4 : Int) ≤ ((2 ^ j : Nat) : Int) → 2 ^ e ≤ 2 ^ j) ∧
      1 ≤ sc.shards.length ∧ ((4 : Int) ≤ 1 → sc.shards.length = 1) ∧
      sc.shardMask + 1 = sc.shards.length ∧
      (∀ sh ∈ sc.shards, sh.items.entries = [] ∧ sh.count = 0) :=
  C10_new_sharded_cache 63 4 (by decide) (by decide)

/-! ## The sharded cache -/

theorem route_le_mask (sc : ShardedCache) (k : GoString) : sc.route k ≤ sc.shardMask :=
  Nat.and_le_right

theorem route_lt (sc : ShardedCache) (k : GoString) (h : sc.InRange) :
    sc.route k < sc.shards.length :=
  Nat.lt_of_le_of_lt (route_le_mask sc k) h

/-- What a returning `ShardedCache.Put` has done: the routed shard is replaced by the
result of its own `Put`, and nothing else is written. -/
theorem ShardedCache_Put_some (sc : ShardedCache) (pick : Nat) (k v : GoString) (sc' : ShardedCache)
    (h : sc.Put pick k v = some sc') :
    ∃ shard, sc.shards[sc.route k]? = some shard ∧
      sc' = { shards := sc.shards.set (sc.route k) (shard.Put pick k v), shardMask := sc.shardMask } := by
  unfold ShardedCache.Put at h
  cases hs : sc.shards[djb2Hash k &&& sc.shardMask]? with
  | none => rw [hs] at h; exact absurd h (by simp)
  | some shard =>
    rw [hs] at h
    exact ⟨shard, hs, (Option.some.inj h).symm⟩

/-- On a cache whose mask is in range, `ShardedCache.Put` returns. -/
theorem ShardedCache_Put_returns (sc : ShardedCache) (pick : Nat) (k v : GoString) (h : sc.InRange) :
    ∃ sc', sc.Put pick k v = some sc' := by
  have hlt := route_lt sc k h
  unfold ShardedCache.route at hlt
  unfold ShardedCache.Put
  rw [List.getElem?_eq_getElem hlt]
  exact ⟨_, rfl⟩

/-- On a cache whose mask is in range, `ShardedCache.Get` returns. -/
theorem ShardedCache_Get_returns (sc : ShardedCache) (k : GoString) (h : sc.InRange) :
    ∃ r, sc.Get k = some r := by
  have hlt := route_lt sc k h
  unfold ShardedCache.route at hlt
  unfold ShardedCache.Get
  rw [List.getElem?_eq_getElem hlt]
  exact ⟨_, rfl⟩

theorem InRange_Put (sc : ShardedCache) (pick : Nat) (k v : GoString) (sc' : ShardedCache)
    (h : sc.Put pick k v = some sc') (hr : sc.InRange) : sc'.InRange := by
  obtain ⟨shard, _, heq⟩ := ShardedCache_Put_some sc pick k v sc' h
  subst heq
  unfold ShardedCache.InRange at hr ⊢
  simpa using hr

theorem InRange_new (fuel : Nat) (n : Int) (sc : ShardedCache)
    (h : NewShardedCache fuel n = some sc) : sc.InRange := by
  obtain ⟨_, e, _, hsh, hmask, _, _⟩ := NewShardedCache_some fuel n sc h
  have hposN : 0 < 2 ^ e := Nat.two_pow_pos e
  unfold ShardedCache.InRange
  rw [hsh, hmask, List.length_replicate]
  omega

/-- A sequence of `Put` calls on a cache whose mask is in range never panics, and leaves
the mask in range. -/
theorem runPuts_returns (ops : List (Nat × GoString × GoString)) :
    ∀ sc : ShardedCache, sc.InRange → ∃ sc', sc.runPuts ops = some sc' ∧ sc'.InRange := by
  induction ops with
  | nil => intro sc h; exact ⟨sc, rfl, h⟩
  | cons op rest ih =>
    intro sc h
    obtain ⟨pick, k, v⟩ := op
    obtain ⟨sc1, h1⟩ := ShardedCache_Put_returns sc pick k v h
    obtain ⟨sc2, h2, hr⟩ := ih sc1 (InRange_Put sc pick k v sc1 h1 h)
    refine ⟨sc2, ?_, hr⟩
    unfold ShardedCache.runPuts
    rw [h1]
    exact h2

/-- On a cache whose mask is in range, `Put(k, v)` returns and `Get(k)` on the result
reads the shard that `Put` wrote. -/
theorem ShardedCache_Get_Put (sc : ShardedCache) (pick : Nat) (k v : GoString) (h : sc.InRange) :
    ∃ sc', sc.Put pick k v = some sc' ∧ sc'.Get k = some (v, true) ∧
      sc'.route k = sc.route k := by
  obtain ⟨sc', hput⟩ := ShardedCache_Put_returns sc pick k v h
  obtain ⟨shard, _, heq⟩ := ShardedCache_Put_some sc pick k v sc' hput
  refine ⟨sc', hput, ?_, ?_⟩
  · subst heq
    have hlt := route_lt sc k h
    unfold ShardedCache.Get
    unfold ShardedCache.route at hlt
    simp only [ShardedCache.route, List.getElem?_set_self hlt]
    rw [Get_Put_same]
  · subst heq
    rfl

/-- C11: for every cache that `NewShardedCache(n)` returns, after any finite sequence of
`Put` calls (none of which panics), `Put(k, v)` returns and `Get(k)` right after it returns
`(v, true)`: both calls compute the same shard index for `k`. -/
theorem C11_sharded_get_after_put (fuel : Nat) (n : Int) (sc0 : ShardedCache)
    (h0 : NewShardedCache fuel n = some sc0) (ops : List (Nat × GoString × GoString))
    (pick : Nat) (k v : GoString) :
    ∃ sc sc', sc0.runPuts ops = some sc ∧ sc.Put pick k v = some sc' ∧
      sc'.Get k = some (v, true) ∧ sc'.route k = sc.route k := by
  obtain ⟨sc, hrun, hr⟩ := runPuts_returns ops sc0 (InRange_new fuel n sc0 h0)
  obtain ⟨sc', hput, hget, hroute⟩ := ShardedCache_Get_Put sc pick k v hr
  exact ⟨sc, sc', hrun, hput, hget, hroute⟩

/-- Witness of C11: the cache of four shards, after two writes, written and read at `[107]`. -/
theorem C11_sharded_get_after_put_witness :
    ∃ sc sc',
      ShardedCache.runPuts { shards := List.replicate 4 NewCacheShard, shardMask := 3 }
        [(0, [1], [2]), (0, [3], [4])] = some sc ∧
      sc.Put 0 [107] [118] = some sc' ∧
      sc'.Get [107] = some ([118], true) ∧ sc'.route [107] = sc.route [107] :=
  C11_sharded_get_after_put 63 4 { shards := List.replicate 4 NewCacheShard, shardMask := 3 } rfl
    [(0, [1], [2]), (0, [3], [4])] 0 [107] [118]

/-- C12: whenever `ShardedCache.Put(k, v)` returns, and it returns on every cache whose
mask is in range, it has changed only the shard at index `djb2Hash(k) & shardMask`: the
number of shards and `shardMask` are unchanged, every shard at another index is unchanged
(map and counter), and `Get(k')` is unchanged for every key `k'` routed to another index,
whether or not the routed shard evicts. -/
theorem C12_sharded_put_frame (sc : ShardedCache) (pick : Nat) (k v : GoString) :
    (sc.InRange → ∃ sc', sc.Put pick k v = some sc') ∧
      ∀ sc', sc.Put pick k v = some sc' →
        sc'.shards.length = sc.shards.length ∧ sc'.shardMask = sc.shardMask ∧
        (∀ i, i ≠ sc.route k → sc'.shards[i]? = sc.shards[i]?) ∧
        (∀ k', sc.route k' ≠ sc.route k → sc'.Get k' = sc.Get k') := by
  refine ⟨ShardedCache_Put_returns sc pick k v, ?_⟩
  intro sc' hput
  obtain ⟨shard, _, heq⟩ := ShardedCache_Put_some sc pick k v sc' hput
  subst heq
  refine ⟨by simp, rfl, ?_, ?_⟩
  · intro i hne
    exact List.getElem?_set_ne (Ne.symm hne)
  · intro k' hne
    unfold ShardedCache.Get
    unfold ShardedCache.route at hne
    simp only [ShardedCache.route, List.getElem?_set_ne (Ne.symm hne)]

/-- Witness of C12: the full shard beside a fresh one; a write routed to the full shard,
which evicts, leaves the other shard and the reads routed to it as they were. -/
theorem C12_sharded_put_frame_witness :
    ∃ sc', ShardedCache.Put { shards := [NewCacheShard, fullShard], shardMask := 1 } 0 [0] [9] = some sc' ∧
      sc'.shards.length = 2 ∧ sc'.shardMask = 1 ∧ sc'.shards[0]? = some NewCacheShard :=
  let sc : ShardedCache := { shards := [NewCacheShard, fullShard], shardMask := 1 }
  let ⟨sc', h⟩ := (C12_sharded_put_frame sc 0 [0] [9]).1 (show (1 : Nat) < 2 from by decide)
  ⟨sc', h, ((C12_sharded_put_frame sc 0 [0] [9]).2 sc' h).1, ((C12_sharded_put_frame sc 0 [0] [9]).2 sc' h).2.1,
    (((C12_sharded_put_frame sc 0 [0] [9]).2 sc' h).2.2.1 0 (by decide)).trans rfl⟩

/-- C19: for every cache that `NewShardedCache(n)` returns and every key `k`, the index
`djb2Hash(k) & shardMask` is below the number of shards, so the slice reads of
`ShardedCache.Put` and `ShardedCache.Get` are in range (neither call panics) and select
a shard that `NewCacheShard` initialised. -/
theorem C19_route_in_range (fuel : Nat) (n : Int) (sc : ShardedCache)
    (h : NewShardedCache fuel n = some sc) (pick : Nat) (k v : GoString) :
    djb2Hash k &&& sc.shardMask < sc.shards.length ∧
      sc.shards[djb2Hash k &&& sc.shardMask]? = some NewCacheShard ∧
      (∃ r, sc.Get k = some r) ∧ (∃ sc', sc.Put pick k v = some sc') := by
  have hr := InRange_new fuel n sc h
  have hlt := route_lt sc k hr
  unfold ShardedCache.route at hlt
  refine ⟨hlt, ?_, ShardedCache_Get_returns sc k hr, ShardedCache_Put_returns sc pick k v hr⟩
  obtain ⟨_, e, _, hsh, _, _, _⟩ := NewShardedCache_some fuel n sc h
  rw [hsh, List.length_replicate] at hlt
  rw [hsh, List.getElem?_replicate, if_pos hlt]

/-- Witness of C19: the cache of four shards and the key `[107, 49]`. -/
theorem C19_route_in_range_witness :
    djb2Hash [107, 49] &&& 3 < 4 ∧
      (List.replicate 4 NewCacheShard)[djb2Hash [107, 49] &&& 3]? = some NewCacheShard ∧
      (∃ r, ShardedCache.Get { shards := List.replicate 4 NewCacheShard, shardMask := 3 } [107, 49] = some r) ∧
      (∃ sc', ShardedCache.Put { shards := List.replicate 4 NewCacheShard, shardMask := 3 } 0 [107, 49] [1]
        = some sc') :=
  C19_route_in_range 63 4 { shards := List.replicate 4 NewCacheShard, shardMask := 3 } rfl 0 [107, 49] [1]

/-! ## Hash collisions -/

theorem djb2Loop_append (p r : GoString) : ∀ h : Nat, djb2Loop (p ++ r) h = djb2Loop r (djb2Loop p h) := by
  induction p with
  | nil => intro h; rfl
  | cons c rest ih => intro h; exact ih (djb2Step h c)

theorem djb2Step_lt (h : Nat) (b : Byte) : djb2Step h b < 18446744073709551616 := by
  rw [djb2Step_eq]
  norm_num
  omega

/-- One step of the hash is injective on `uint64` values: 33 is odd. -/
theorem djb2Step_injective (h1 h2 : Nat) (c : Byte) (hh1 : h1 < 18446744073709551616)
    (hh2 : h2 < 18446744073709551616) (heq : djb2Step h1 c = djb2Step h2 c) : h1 = h2 := by
  rw [djb2Step_eq, djb2Step_eq] at heq
  have h64 : (2 : Nat) ^ 64 = 18446744073709551616 := by norm_num
  rw [h64] at heq
  have hmul : Nat.ModEq 18446744073709551616 (h1 * 33) (h2 * 33) :=
    Nat.ModEq.add_right_cancel' c.val heq
  have hgcd : Nat.gcd 18446744073709551616 33 = 1 := by norm_num
  have hmod : Nat.ModEq 18446744073709551616 h1 h2 :=
    Nat.ModEq.cancel_right_of_coprime hgcd hmul
  unfold Nat.ModEq at hmod
  rwa [Nat.mod_eq_of_lt hh1, Nat.mod_eq_of_lt hh2] at hmod

/-- The hash loop over a fixed suffix is injective in the `uint64` value it starts from. -/
theorem djb2Loop_injective (q : GoString) : ∀ h1 h2 : Nat, h1 < 18446744073709551616 →
    h2 < 18446744073709551616 → djb2Loop q h1 = djb2Loop q h2 → h1 = h2 := by
  induction q with
  | nil => intro h1 h2 _ _ heq; exact heq
  | cons c rest ih =>
    intro h1 h2 hh1 hh2 heq
    exact djb2Step_injective h1 h2 c hh1 hh2
      (ih _ _ (djb2Step_lt h1 c) (djb2Step_lt h2 c) heq)

theorem djb2Step_byte_ne (h : Nat) (a b : Byte) (hab : a ≠ b) : djb2Step h a ≠ djb2Step h b := by
  rw [djb2Step_eq, djb2Step_eq]
  have ha := a.isLt
  have hb := b.isLt
  have hne : a.val ≠ b.val := fun hv => hab (Fin.ext hv)
  norm_num
  omega

/-- C17, as stated, fails: the distinct strings `"Ab"` and `"BA"` have the same hash. -/
theorem C17_counterexample :
    ascii "Ab" ≠ ascii "BA" ∧ djb2Hash (ascii "Ab") = djb2Hash (ascii "BA") := by
  constructor
  · decide
  · decide

/-- C17, amended: two strings that differ in exactly one byte (the same bytes before it
and after it) have different hashes, and so have the two inputs of the test, `"test"` and
`"different"`. -/
theorem C17_one_byte_difference (p q : GoString) (a b : Byte) (hab : a ≠ b) :
    djb2Hash (p ++ a :: q) ≠ djb2Hash (p ++ b :: q) ∧
      djb2Hash (ascii "test") ≠ djb2Hash (ascii "different") := by
  constructor
  · intro heq
    unfold djb2Hash at heq
    rw [djb2Loop_append, djb2Loop_append] at heq
    have hstep := djb2Loop_injective q _ _ (djb2Step_lt _ a) (djb2Step_lt _ b) heq
    exact djb2Step_byte_ne _ a b hab hstep
  · decide

/-- Witness of the amended C17: `"key1"` and `"kez1"`, which differ in their third byte. -/
theorem C17_one_byte_difference_witness :
    djb2Hash ([107, 101] ++ 121 :: [49]) ≠ djb2Hash ([107, 101] ++ 122 :: [49]) ∧
      djb2Hash (ascii "test") ≠ djb2Hash (ascii "different") :=
  C17_one_byte_difference [107, 101] [49] 121 122 (by decide)

/-! ## Termination of the rounding loop -/

/-- C20 fails on the code: at `numShards = 2^62 + 1`, a value of the 64-bit `int` type,
the loop `for powerOf2 < numShards` is never left, however many iterations are run:
`powerOf2` reaches `2^62`, the next doubling wraps to `-2^63`, the next to `0`, and `0`
stays below `numShards`. -/
theorem C20_loop_never_exits :
    (4611686018427387905 : Int) ≤ 9223372036854775807 ∧
      ¬ ∃ (fuel : Nat) (p : Int), roundLoop fuel 4611686018427387905 1 = some p := by
  refine ⟨by decide, ?_⟩
  rintro ⟨fuel, p, h⟩
  rw [roundLoop_diverges 4611686018427387905 (by decide) fuel] at h
  exact absurd h (by simp)

/-! ## The HTTP handler -/

/-- C13: on a `POST /put` request, with the cache's mask in range, `requestHandler`
answers, and its status is 400 exactly when `json.Unmarshal` reports an error on the body,
or the decoded key is empty, or the key is longer than 256 bytes, or the value is longer
than 256 bytes (a length of exactly 256 is accepted); and when the status is 400 the cache
is the one before the call. -/
theorem C13_put_bad_request (unmarshal : GoString → Option PutRequest)
    (marshal : GetResponse → Option GoString) (cache : ShardedCache) (pick : Nat) (ctx : Request)
    (hm : ctx.method = ascii "POST") (hp : ctx.path = ascii "/put") (hr : cache.InRange) :
    ∃ resp cache', requestHandler unmarshal marshal cache pick ctx = some (resp, cache') ∧
      (resp.statusCode = 400 ↔
        (unmarshal ctx.postBody = none ∨
          ∃ req, unmarshal ctx.postBody = some req ∧
            (req.Key = [] ∨ 256 < req.Key.length ∨ 256 < req.Value.length))) ∧
      (resp.statusCode = 400 → cache' = cache) := by
  unfold requestHandler
  rw [if_pos hm, if_pos hp]
  cases hu : unmarshal ctx.postBody with
  | none =>
    exact ⟨_, _, rfl, ⟨fun _ => Or.inl rfl, fun _ => rfl⟩, fun _ => rfl⟩
  | some req =>
    by_cases hk : req.Key = []
    · simp only [if_pos hk]
      exact ⟨_, _, rfl, ⟨fun _ => Or.inr ⟨req, rfl, Or.inl hk⟩, fun _ => rfl⟩, fun _ => rfl⟩
    · by_cases hl : req.Key.length > maxKeyValueSize ∨ req.Value.length > maxKeyValueSize
      · simp only [if_neg hk, if_pos hl]
        refine ⟨_, _, rfl, ⟨fun _ => Or.inr ⟨req, rfl, Or.inr ?_⟩, fun _ => rfl⟩, fun _ => rfl⟩
        unfold maxKeyValueSize at hl
        exact hl
      · obtain ⟨cache', hput⟩ := ShardedCache_Put_returns cache pick req.Key req.Value hr
        simp only [if_neg hk, if_neg hl, hput]
        refine ⟨_, _, rfl, ⟨fun h => absurd h (by decide), ?_⟩, fun h => absurd h (by decide)⟩
        rintro (h | ⟨r, hreq, h⟩)
        · exact absurd h (by simp)
        · have hrr : r = req := (Option.some.inj hreq).symm
          subst hrr
          unfold maxKeyValueSize at hl
          rcases h with h | h | h
          · exact absurd h hk
          · exact absurd (Or.inl h) hl
          · exact absurd (Or.inr h) hl

/-- Witness of C13: a body decoded to a key of exactly 256 bytes, on the cache of four shards. -/
theorem C13_put_bad_request_witness :
    ∃ resp cache',
      requestHandler (fixedUnmarshal (some { Key := List.replicate 256 97, Value := [118] })) plainMarshal
        { shards := List.replicate 4 NewCacheShard, shardMask := 3 } 0
        { method := ascii "POST", path := ascii "/put", postBody := [], queryKey := [] }
        = some (resp, cache') ∧
      (resp.statusCode = 400 ↔
        (fixedUnmarshal (some { Key := List.replicate 256 97, Value := [118] }) [] = none ∨
          ∃ req, fixedUnmarshal (some { Key := List.replicate 256 97, Value := [118] }) [] = some req ∧
            (req.Key = [] ∨ 256 < req.Key.length ∨ 256 < req.Value.length))) ∧
      (resp.statusCode = 400 → cache' = { shards := List.replicate 4 NewCacheShard, shardMask := 3 }) :=
  C13_put_bad_request (fixedUnmarshal (some { Key := List.replicate 256 97, Value := [118] })) plainMarshal
    { shards := List.replicate 4 NewCacheShard, shardMask := 3 } 0
    { method := ascii "POST", path := ascii "/put", postBody := [], queryKey := [] }
    rfl rfl (show (3 : Nat) < (List.replicate 4 NewCacheShard).length from by decide)

/-- C14: when the body of a `POST /put` request decodes to a key of 1 to 256 bytes and a
value of at most 256 bytes, on a cache whose mask is in range, `requestHandler` answers
with status 200 and the body `putSuccessBytes`, and `Get(key)` on the cache after the call
returns `(value, true)`. -/
theorem C14_put_ok (unmarshal : GoString → Option PutRequest)
    (marshal : GetResponse → Option GoString) (cache : ShardedCache) (pick : Nat) (ctx : Request)
    (key value : GoString)
    (hm : ctx.method = ascii "POST") (hp : ctx.path = ascii "/put")
    (hbody : unmarshal ctx.postBody = some { Key := key, Value := value })
    (hk1 : 1 ≤ key.length) (hk2 : key.length ≤ 256) (hv : value.length ≤ 256)
    (hr : cache.InRange) :
    ∃ resp cache', requestHandler unmarshal marshal cache pick ctx = some (resp, cache') ∧
      resp.statusCode = 200 ∧ resp.body = putSuccessBytes ∧
      cache'.Get key = some (value, true) := by
  obtain ⟨cache', hput, hget, _⟩ := ShardedCache_Get_Put cache pick key value hr
  have hk : ¬ key = [] := by
    intro h; rw [h] at hk1; exact absurd hk1 (by decide)
  have hl : ¬ (key.length > maxKeyValueSize ∨ value.length > maxKeyValueSize) := by
    unfold maxKeyValueSize; omega
  unfold requestHandler
  rw [if_pos hm, if_pos hp, hbody]
  simp only [if_neg hk, if_neg hl, hput]
  exact ⟨_, _, rfl, rfl, rfl, hget⟩

/-- Witness of C14: the request of `TestRequestHandler_Put`, key `"testkey"` and value
`"testvalue"`, on the cache of four shards. -/
theorem C14_put_ok_witness :
    ∃ resp cache',
      requestHandler (fixedUnmarshal (some { Key := ascii "testkey", Value := ascii "testvalue" }))
        plainMarshal { shards := List.replicate 4 NewCacheShard, shardMask := 3 } 0
        { method := ascii "POST", path := ascii "/put", postBody := [], queryKey := [] }
        = some (resp, cache') ∧
      resp.statusCode = 200 ∧ resp.body = putSuccessBytes ∧
      cache'.Get (ascii "testkey") = some (ascii "testvalue", true) :=
  C14_put_ok (fixedUnmarshal (some { Key := ascii "testkey", Value := ascii "testvalue" }))
    plainMarshal { shards := List.replicate 4 NewCacheShard, shardMask := 3 } 0
    { method := ascii "POST", path := ascii "/put", postBody := [], queryKey := [] }
    (ascii "testkey") (ascii "testvalue") rfl rfl rfl (by decide) (by decide) (by decide)
    (show (3 : Nat) < (List.replicate 4 NewCacheShard).length from by decide)

/-- C15: on a `GET /get` request, with the cache's mask in range and `json.Marshal` not
failing (it has no error on a struct of three strings), `requestHandler` answers and
leaves the cache as it was; the status is 400 when the `key` argument is missing or empty;
otherwise the status is 200, the body is the encoding of
`GetResponse` with status `"OK"`, the requested key and the stored value when
`cache.Get(key)` finds the key, and the body is exactly `keyNotFoundBytes` when it does not. -/
theorem C15_get (unmarshal : GoString → Option PutRequest)
    (marshal : GetResponse → Option GoString) (cache : ShardedCache) (pick : Nat) (ctx : Request)
    (hm : ctx.method = ascii "GET") (hp : ctx.path = ascii "/get") (hr : cache.InRange)
    (hmar : ∀ r, marshal r ≠ none) :
    ∃ resp, requestHandler unmarshal marshal cache pick ctx = some (resp, cache) ∧
      (ctx.queryKey = [] → resp.statusCode = 400) ∧
      (ctx.queryKey ≠ [] → resp.statusCode = 200 ∧
        ∃ value found, cache.Get ctx.queryKey = some (value, found) ∧
          (found = true →
            marshal { Status := ascii "OK", Key := ctx.queryKey, Value := value } = some resp.body) ∧
          (found = false → resp.body = keyNotFoundBytes)) := by
  have hpost : ¬ ctx.method = ascii "POST" := by rw [hm]; decide
  have hhealth : ¬ ctx.path = ascii "/health" := by rw [hp]; decide
  unfold requestHandler
  rw [if_neg hpost, if_pos hm, if_neg hhealth, if_pos hp]
  by_cases hk : ctx.queryKey = []
  · rw [if_pos hk]
    exact ⟨_, rfl, fun _ => rfl, fun h => absurd hk h⟩
  · rw [if_neg hk]
    obtain ⟨⟨value, found⟩, hget⟩ := ShardedCache_Get_returns cache ctx.queryKey hr
    rw [hget]
    cases found with
    | false =>
      exact ⟨_, rfl, fun h => absurd h hk,
        fun _ => ⟨rfl, value, false, rfl, fun h => absurd h (by decide), fun _ => rfl⟩⟩
    | true =>
      cases hb : marshal { Status := ascii "OK", Key := ctx.queryKey, Value := value } with
      | none => exact absurd hb (hmar _)
      | some respJSON =>
        refine ⟨jsonOK respJSON, ?_, fun h => absurd h hk,
          fun _ => ⟨rfl, value, true, rfl, fun _ => hb, fun h => absurd h (by decide)⟩⟩
        simp [hb]

/-- Witness of C15: the request of `TestRequestHandler_GetNotFound`, on the cache of four shards. -/
theorem C15_get_witness :
    ∃ resp,
      requestHandler (fixedUnmarshal none) plainMarshal
        { shards := List.replicate 4 NewCacheShard, shardMask := 3 } 0
        { method := ascii "GET", path := ascii "/get", postBody := [], queryKey := ascii "nonexistent" }
        = some (resp, { shards := List.replicate 4 NewCacheShard, shardMask := 3 }) ∧
      (ascii "nonexistent" = [] → resp.statusCode = 400) ∧
      (ascii "nonexistent" ≠ [] → resp.statusCode = 200 ∧
        ∃ value found,
          ShardedCache.Get { shards := List.replicate 4 NewCacheShard, shardMask := 3 }
            (ascii "nonexistent") = some (value, found) ∧
          (found = true →
            plainMarshal { Status := ascii "OK", Key := ascii "nonexistent", Value := value }
              = some resp.body) ∧
          (found = false → resp.body = keyNotFoundBytes)) :=
  C15_get (fixedUnmarshal none) plainMarshal
    { shards := List.replicate 4 NewCacheShard, shardMask := 3 } 0
    { method := ascii "GET", path := ascii "/get", postBody := [], queryKey := ascii "nonexistent" }
    rfl rfl (show (3 : Nat) < (List.replicate 4 NewCacheShard).length from by decide)
    (fun r h => Option.noConfusion h)

/-- C16: whatever the cache, `requestHandler` answers every `GET /health` request with
status 200 and exactly the body `healthOKBytes`, and answers every request whose method
and path are not `POST /put`, `GET /get` or `GET /health` with status 404; in both cases
the cache after the call is the cache before it. -/
theorem C16_health_and_not_found (unmarshal : GoString → Option PutRequest)
    (marshal : GetResponse → Option GoString) (cache : ShardedCache) (pick : Nat) (ctx : Request) :
    (ctx.method = ascii "GET" → ctx.path = ascii "/health" →
      ∃ resp, requestHandler unmarshal marshal cache pick ctx = some (resp, cache) ∧
        resp.statusCode = 200 ∧ resp.body = healthOKBytes) ∧
      (¬ (ctx.method = ascii "POST" ∧ ctx.path = ascii "/put") →
        ¬ (ctx.method = ascii "GET" ∧ ctx.path = ascii "/get") →
        ¬ (ctx.method = ascii "GET" ∧ ctx.path = ascii "/health") →
        ∃ resp, requestHandler unmarshal marshal cache pick ctx = some (resp, cache) ∧
          resp.statusCode = 404) := by
  constructor
  · intro hm hp
    have hpost : ¬ ctx.method = ascii "POST" := by rw [hm]; decide
    unfold requestHandler
    rw [if_neg hpost, if_pos hm, if_pos hp]
    exact ⟨_, rfl, rfl, rfl⟩
  · intro h1 h2 h3
    unfold requestHandler
    by_cases hpost : ctx.method = ascii "POST"
    · have hput : ¬ ctx.path = ascii "/put" := fun h => h1 ⟨hpost, h⟩
      rw [if_pos hpost, if_neg hput]
      exact ⟨_, rfl, rfl⟩
    · rw [if_neg hpost]
      by_cases hget : ctx.method = ascii "GET"
      · have hhealth : ¬ ctx.path = ascii "/health" := fun h => h3 ⟨hget, h⟩
        have hgetp : ¬ ctx.path = ascii "/get" := fun h => h2 ⟨hget, h⟩
        rw [if_pos hget, if_neg hhealth, if_neg hgetp]
        exact ⟨_, rfl, rfl⟩
      · rw [if_neg hget]
        exact ⟨_, rfl, rfl⟩

/-- Witness of C16: `GET /health` is answered 200 and `GET /put` is answered 404, on a
cache with no shard at all. -/
theorem C16_health_and_not_found_witness :
    (∃ resp, requestHandler (fixedUnmarshal none) plainMarshal { shards := [], shardMask := 0 } 0
        { method := ascii "GET", path := ascii "/health", postBody := [], queryKey := [] }
        = some (resp, { shards := [], shardMask := 0 }) ∧
        resp.statusCode = 200 ∧ resp.body = healthOKBytes) ∧
      (∃ resp, requestHandler (fixedUnmarshal none) plainMarshal { shards := [], shardMask := 0 } 0
        { method := ascii "GET", path := ascii "/put", postBody := [], queryKey := [] }
        = some (resp, { shards := [], shardMask := 0 }) ∧
        resp.statusCode = 404) :=
  ⟨(C16_health_and_not_found (fixedUnmarshal none) plainMarshal { shards := [], shardMask := 0 } 0
      { method := ascii "GET", path := ascii "/health", postBody := [], queryKey := [] }).1 rfl rfl,
    (C16_health_and_not_found (fixedUnmarshal none) plainMarshal { shards := [], shardMask := 0 } 0
      { method := ascii "GET", path := ascii "/put", postBody := [], queryKey := [] }).2
      (by decide) (by decide) (by decide)⟩

end KVCache
